import Mathlib

/-!
Verification of the jobber work-time ledger against its specification.

The Rust sources are embedded shallowly: each Rust function becomes a Lean
definition of the same name (up to Lean naming rules); vectors become lists,
`HashMap` lookups become functions `String → Option _` (the code only ever
calls `get`, never iterates the map), `f64` amounts become `ℚ`, and chrono
instants become integer minute counts.  Types whose defining file is not in
the repository snapshot (`Job`, `Configuration`, `PartialDateTime`,
`Duration`, `Args`, `Context`, `Range`) are modelled from the specification
and marked as such in their doc comments.
-/

namespace Jobber

/-! ## TagSet (src/tag_set.rs) -/

/-- `pub struct TagSet(pub Vec<String>)` from src/tag_set.rs. -/
structure TagSet where
  val : List String
deriving DecidableEq, Repr

/-- `TagSet::new` (src/tag_set.rs line 8). -/
def TagSet.new : TagSet := ⟨[]⟩

/-- `TagSet::contains` (src/tag_set.rs line 27): `Vec::contains` is list
membership. -/
def TagSet.contains (s : TagSet) (tag : String) : Bool :=
  decide (tag ∈ s.val)

/-- `TagSet::insert` (src/tag_set.rs lines 57-64).  The Rust method mutates
`self` and returns a `bool`; here it returns the new set paired with that
boolean. -/
def TagSet.insert (s : TagSet) (tag : String) : TagSet × Bool :=
  if tag ∈ s.val then
    (s, false)
  else
    (⟨s.val ++ [tag]⟩, true)

/-- `TagSet::insert_many` (src/tag_set.rs lines 65-69): insert each tag in
order, discarding the returned booleans. -/
def TagSet.insert_many (s : TagSet) (tags : List String) : TagSet :=
  tags.foldl (fun acc tag => (acc.insert tag).1) s

/-- `TagSet::remove` (src/tag_set.rs lines 70-77): keep exactly the elements
different from `tag`. -/
def TagSet.remove (s : TagSet) (tag : String) : TagSet :=
  ⟨s.val.filter (fun t => t ≠ tag)⟩

/-- Rust `str::starts_with(c)` for a single ASCII character: the first
character of the string is `c`. -/
def strStarts (s : String) (c : Char) : Bool :=
  decide (s.data.head? = some c)

/-- Rust `str::ends_with(c)` for a single ASCII character: the last
character of the string is `c`. -/
def strEnds (s : String) (c : Char) : Bool :=
  decide (s.data.getLast? = some c)

/-- Rust `&tag[1..]` for a string whose first character is ASCII: the string
without its first character. -/
def strTail (s : String) : String :=
  ⟨s.data.drop 1⟩

/-- The loop of `TagSet::modify` (src/tag_set.rs lines 37-47): state is the
`modify` flag and the accumulating set, updated per entry of the
modification list.  `tag[1..]` drops the first character of the entry, also
when the marker was detected as a suffix. -/
def modifyLoop : List String → Bool → TagSet → Bool × TagSet
  | [], flag, tags => (flag, tags)
  | tag :: rest, flag, tags =>
    if strStarts tag '+' || strEnds tag '+' then
      modifyLoop rest true (tags.insert (strTail tag)).1
    else if strStarts tag '-' || strEnds tag '-' then
      modifyLoop rest true (tags.remove (strTail tag))
    else
      modifyLoop rest flag tags

/-- `TagSet::modify` (src/tag_set.rs lines 36-53).  Note that the receiver
(`self`, the base set) is never read by the Rust body; it is kept as an
argument to mirror the signature. -/
def TagSet.modify (self modification : TagSet) : TagSet :=
  let r := modifyLoop modification.val false TagSet.new
  if r.1 then r.2 else modification

/-- Helper for `Vec::dedup`: drop the elements of the list equal to the
element kept just before them. -/
def dedupFrom (prev : String) : List String → List String
  | [] => []
  | b :: rest => if prev = b then dedupFrom prev rest else b :: dedupFrom b rest

/-- `Vec::dedup` as used by `impl From<Vec<String>> for TagSet`
(src/tag_set.rs lines 90-96): removes *consecutive* repeated elements,
keeping the first of each run. -/
def dedupList : List String → List String
  | [] => []
  | a :: rest => a :: dedupFrom a rest

/-- `impl From<Vec<String>> for TagSet` (src/tag_set.rs lines 90-96). -/
def TagSet.fromVec (tags : List String) : TagSet :=
  ⟨dedupList tags⟩

/-- A modification entry carries an add/remove marker: it starts or ends
with `+` or `-`. -/
def hasMarker (t : String) : Bool :=
  strStarts t '+' || strEnds t '+' || strStarts t '-' || strEnds t '-'

/-- Reference description of the marked case of `TagSet::modify`: starting
from the accumulator, insert the tail of each `+`-marked entry and remove
the tail of each `-`-marked entry, in order, ignoring unmarked entries. -/
def applyMarked : List String → TagSet → TagSet
  | [], acc => acc
  | t :: rest, acc =>
    if strStarts t '+' || strEnds t '+' then
      applyMarked rest (acc.insert (strTail t)).1
    else if strStarts t '-' || strEnds t '-' then
      applyMarked rest (acc.remove (strTail t))
    else
      applyMarked rest acc

/-- Reference description of `TagSet::modify` as a function of the
modification set alone: if any entry carries a marker, apply the marked
operations to an empty set; otherwise the modification set replaces the
base outright. -/
def modifySpec (modification : TagSet) : TagSet :=
  if modification.val.any hasMarker then
    applyMarked modification.val TagSet.new
  else
    modification

/-! ## Configuration, Job and JobList (src/job_list.rs) -/

/-- Modelled from the spec: the `Configuration` record (the spec's
`Properties`) lives in a file that is not part of the snapshot
(src/job_list.rs only consumes it).  Per spec section 3 it carries a
resolution (fractional-hour rounding unit), an optional hourly rate —
called `pay` by the consuming code in src/job_list.rs — and an optional
daily maximum of hours.  `f64` values are modelled as `ℚ`. -/
structure Configuration where
  resolution : ℚ
  pay : Option ℚ
  max_hours : Option ℕ
deriving DecidableEq, Repr

/-- Modelled from the spec: the `Job` record (job.rs is not part of the
snapshot): start instant, optional end instant (`none` = open), optional
message, TagSet.  Instants are minutes since an epoch. -/
structure Job where
  start : ℤ
  end_ : Option ℤ
  message : Option String
  tags : TagSet
deriving DecidableEq, Repr

/-- Modelled from the spec: `Job::hours` (job.rs is not part of the
snapshot): the interval length (end − start; the spec resolves an open job
against "now", which `JobList` does not supply, so an open job is modelled
as zero-length here) in hours, rounded to the configuration's resolution
unit. -/
def Job.hours (job : Job) (c : Configuration) : ℚ :=
  let minutes : ℤ := (match job.end_ with | some e => e | none => job.start) - job.start
  let raw : ℚ := (minutes : ℚ) / 60
  if c.resolution = 0 then raw else (round (raw / c.resolution) : ℤ) * c.resolution

/-- `pub struct JobList` (src/job_list.rs lines 6-13).  The
`HashMap<String, Configuration>` is modelled as a lookup function: the code
only ever calls `get` on it, so its iteration order cannot matter. -/
structure JobList where
  jobs : List (ℕ × Job)
  tag_configuration : String → Option Configuration
  default_configuration : Configuration

/-- `JobList::push` (src/job_list.rs lines 50-52). -/
def JobList.push (l : JobList) (pos : ℕ) (job : Job) : JobList :=
  { l with jobs := l.jobs ++ [(pos, job)] }

/-- `JobList::len` (src/job_list.rs lines 57-59). -/
def JobList.len (l : JobList) : ℕ :=
  l.jobs.length

/-- The `while` loop of `JobList::limit` (src/job_list.rs lines 60-64):
while more than `count` entries remain, remove the front entry. -/
def limitLoop (count : ℕ) : List (ℕ × Job) → List (ℕ × Job)
  | [] => []
  | x :: xs => if (x :: xs).length > count then limitLoop count xs else x :: xs

/-- `JobList::limit` (src/job_list.rs lines 60-64). -/
def JobList.limit (l : JobList) (count : ℕ) : JobList :=
  { l with jobs := limitLoop count l.jobs }

/-- The `for` loop of `JobList::get_configuration_with_tag`
(src/job_list.rs lines 81-86): first tag with an entry in the tag map wins;
falling through returns the empty tag with the default configuration. -/
def getcwtLoop (l : JobList) : List String → String × Configuration
  | [] => ("", l.default_configuration)
  | tag :: rest =>
    match l.tag_configuration tag with
    | some configuration => (tag, configuration)
    | none => getcwtLoop l rest

/-- `JobList::get_configuration_with_tag` (src/job_list.rs lines 80-87). -/
def JobList.get_configuration_with_tag (l : JobList) (tags : TagSet) :
    String × Configuration :=
  getcwtLoop l tags.val

/-- `JobList::get_configuration` (src/job_list.rs lines 76-78). -/
def JobList.get_configuration (l : JobList) (tags : TagSet) : Configuration :=
  (l.get_configuration_with_tag tags).2

/-- `JobList::hours_overall` (src/job_list.rs lines 88-94). -/
def JobList.hours_overall (l : JobList) : ℚ :=
  l.jobs.foldl (fun hours p => hours + p.2.hours (l.get_configuration p.2.tags)) 0

/-- The loop of `JobList::pay_overall` (src/job_list.rs lines 98-104):
state is the running sum and the `has_payment` flag. -/
def payLoop (l : JobList) : List (ℕ × Job) → ℚ → Bool → ℚ × Bool
  | [], pay_sum, has_payment => (pay_sum, has_payment)
  | p :: rest, pay_sum, has_payment =>
    let configuration := l.get_configuration p.2.tags
    match configuration.pay with
    | some pay => payLoop l rest (pay_sum + pay * p.2.hours configuration) true
    | none => payLoop l rest pay_sum has_payment

/-- `JobList::pay_overall` (src/job_list.rs lines 95-110). -/
def JobList.pay_overall (l : JobList) : Option ℚ :=
  let r := payLoop l l.jobs 0 false
  if r.2 then some r.1 else none

/-- A (position, job) pair whose tag-resolved configuration carries a
rate. -/
def isRated (l : JobList) (p : ℕ × Job) : Bool :=
  (l.get_configuration p.2.tags).pay.isSome

/-- The pay contributed by one (position, job) pair: its rate times its
tag-resolved hours. -/
def jobPay (l : JobList) (p : ℕ × Job) : ℚ :=
  let c := l.get_configuration p.2.tags
  c.pay.getD 0 * p.2.hours c

/-- Tag override used by concrete examples: rate 10. -/
def confA : Configuration := ⟨1, some 10, none⟩

/-- Tag override used by concrete examples: rate 20. -/
def confB : Configuration := ⟨1, some 20, none⟩

/-- Concrete tag map for examples: overrides for `"a"` (rate 10) and `"b"`
(rate 20). -/
def exampleMap : String → Option Configuration :=
  fun t => if t = "a" then some confA else if t = "b" then some confB else none

/-- Concrete JobList with the example tag map and no jobs. -/
def exampleConfigList : JobList :=
  ⟨[], exampleMap, ⟨1, none, none⟩⟩

/-- A closed two-hour job tagged `"a"`. -/
def ratedJob : Job := ⟨0, some 120, none, ⟨["a"]⟩⟩

/-- A closed one-hour job whose tag has no override. -/
def plainJob : Job := ⟨0, some 60, none, ⟨["work"]⟩⟩

/-- Concrete JobList holding one rated job. -/
def payList : JobList :=
  ⟨[(0, ratedJob)], exampleMap, ⟨1, none, none⟩⟩

/-- Concrete JobList of five jobs, for the `limit` examples. -/
def sampleList : JobList :=
  ⟨[(0, plainJob), (1, plainJob), (2, plainJob), (3, plainJob), (4, plainJob)],
   exampleMap, ⟨1, none, none⟩⟩

/-! ## Command inference (src/command.rs) -/

/-- `Duration` as used by src/date_time.rs lines 64-114: either zero or an
(hours, minutes) pair (duration.rs itself is not part of the snapshot). -/
inductive Duration where
  | zero
  | hm (hours minutes : ℤ)
deriving DecidableEq, Repr

/-- Modelled from the spec: `Duration::days` (duration.rs is not part of
the snapshot) — a whole number of days as an (hours, minutes) pair. -/
def Duration.days (n : ℤ) : Duration :=
  .hm (24 * n) 0

/-- Modelled from the spec: `Duration::into_chrono` (duration.rs is not
part of the snapshot) — the duration's total length in minutes, matching
the `Add`/`Sub` impls of src/date_time.rs lines 88-114. -/
def Duration.into_chrono : Duration → ℤ
  | .zero => 0
  | .hm hours minutes => hours * 60 + minutes

/-- Modelled from the spec: `PartialDateTime`
(partial_date_time.rs is not part of the snapshot) — a time spec whose
fields may be omitted: `none` is the bare current-time marker with no
explicit field, `hm` supplies only a time of day, `ymd` only a date (a day
number), `ymdhm` both. -/
inductive PartialDateTime where
  | none
  | hm (hour minute : ℕ)
  | ymd (day : ℤ)
  | ymdhm (day : ℤ) (hour minute : ℕ)
deriving DecidableEq, Repr

/-- Modelled from the spec: `PartialDateTime::into(base)`
(partial_date_time.rs is not part of the snapshot) — resolve to an
absolute instant, defaulting every missing field from `base`: the day of an
instant is `t / 1440`, its time of day `t % 1440`. -/
def PartialDateTime.into : PartialDateTime → ℤ → ℤ
  | .none, base => base
  | .hm hour minute, base => base / 1440 * 1440 + ((hour : ℤ) * 60 + minute)
  | .ymd day, base => day * 1440 + base % 1440
  | .ymdhm day hour minute, _ => day * 1440 + ((hour : ℤ) * 60 + minute)

/-- Modelled from the spec: `Context` (context.rs is not part of the
snapshot) supplies the current instant via `current()`. -/
structure Context' where
  current : ℤ
deriving DecidableEq, Repr

/-- Modelled from the spec: `Range` (range.rs is not part of the snapshot)
is an opaque time-range carrier; nothing in the verified claims depends on
its meaning, so it is kept as the unparsed range string. -/
abbrev Range := String

/-- Modelled from the spec: `Range::parse` (range.rs is not part of the
snapshot), kept opaque. -/
def Range.parse (s : String) (_context : Context') : Range := s

/-- `enum Command` (src/command.rs lines 8-80). -/
inductive Command where
  | Start (start : ℤ) (message : Option (Option String)) (tags : Option (List String))
  | Add (start : ℤ) (end_ : ℤ) (message : Option (Option String))
      (tags : Option (List String))
  | Back (start : ℤ) (message : Option (Option String)) (tags : Option (List String))
  | BackAdd (start : ℤ) (end_ : ℤ) (message : Option (Option String))
      (tags : Option (List String))
  | End (end_ : ℤ) (message : Option (Option String)) (tags : Option (List String))
  | MessageTags (message : Option String) (tags : Option (List String))
  | List (range : Range) (tags : Option (List String))
  | Report (range : Range) (tags : Option (List String)) (context : Context')
  | ExportCSV (range : Range) (tags : Option (List String)) (context : Context')
      (columns : String)
  | ShowConfiguration
  | SetConfiguration (resolution : Option ℚ) (pay : Option ℚ) (tags : Option (List String))
      (max_hours : Option ℕ)
  | LegacyImport (filename : String)
  | ListTags (range : Range) (tags : Option (List String))
deriving DecidableEq, Repr

/-- Modelled from the spec: the parsed-fields record `Args` (args.rs is not
part of the snapshot).  The time-spec and duration strings arrive here
already parsed (`Command::parse` only pipes them through the parsers of the
missing files); `export_` stands for the Rust field `export`, a Lean
keyword. -/
structure Args where
  start : Option PartialDateTime
  back : Option PartialDateTime
  end_ : Option PartialDateTime
  duration : Option Duration
  message : Option (Option String)
  tags : Option String
  list : Option String
  report : Option String
  export_ : Option String
  csv : String
  resolution : Option ℚ
  pay : Option ℚ
  max_hours : Option ℕ
  configuration : Bool
  legacy_import : Option String
  list_tags : Option String

/-- `Command::parse` (src/command.rs lines 87-276).  The `panic!("unknown
command")` arm is modelled as `none`; every produced command is `some`. -/
def Command.parse (args : Args) (open_start : Option ℤ) (context : Context') :
    Option Command :=
  let message := args.message
  let tags := args.tags.map (fun t => t.splitOn ",")
  let set_configuration :=
    args.resolution.isSome || args.pay.isSome || args.max_hours.isSome
  match args.start with
  | some start₀ =>
    let start := start₀.into context.current
    match args.end_ with
    | some end₀ =>
      if end₀ = PartialDateTime.none then
        let e := end₀.into context.current
        let start := if e < start then start - (Duration.days 1).into_chrono else start
        some (.Add start e message tags)
      else
        let e₀ := end₀.into start
        let e := if e₀ < start then e₀ + (Duration.days 1).into_chrono else e₀
        some (.Add start e message tags)
    | none =>
      match args.duration with
      | some duration => some (.Add start (start + duration.into_chrono) message tags)
      | none => some (.Start start message tags)
  | none =>
  match args.back with
  | some start₀ =>
    let start := start₀.into context.current
    match args.end_ with
    | some end₀ =>
      if end₀ = PartialDateTime.none then
        let e := end₀.into context.current
        let start := if e < start then start - (Duration.days 1).into_chrono else start
        some (.BackAdd start e message tags)
      else
        let e₀ := end₀.into start
        let e := if e₀ < start then e₀ + (Duration.days 1).into_chrono else e₀
        some (.BackAdd start e message tags)
    | none =>
      match args.duration with
      | some duration => some (.BackAdd start (start + duration.into_chrono) message tags)
      | none => some (.Back start message tags)
  | none =>
  match args.end_ with
  | some end₀ =>
    let e := end₀.into (match open_start with
      | some open_start => open_start
      | none => context.current)
    some (.End e message tags)
  | none =>
  match args.list with
  | some list => some (.List (Range.parse list context) tags)
  | none =>
  match args.export_ with
  | some exp => some (.ExportCSV (Range.parse exp context) tags context args.csv)
  | none =>
  match args.report with
  | some report => some (.Report (Range.parse report context) tags context)
  | none =>
  if args.configuration then
    some .ShowConfiguration
  else if args.resolution.isSome || args.pay.isSome || args.max_hours.isSome then
    some (.SetConfiguration args.resolution args.pay tags args.max_hours)
  else
  match args.legacy_import with
  | some filename => some (.LegacyImport filename)
  | none =>
  match args.list_tags with
  | some list_tags => some (.ListTags (Range.parse list_tags context) tags)
  | none =>
  if !set_configuration && (message.isSome || args.tags.isSome) then
    some (.MessageTags message.join tags)
  else
    none

/-- `Command::set_message` (src/command.rs lines 279-310).  The panicking
arm ("try to set message of command which has no message") is modelled as
`none`; the five message-carrying variants return the updated command. -/
def Command.set_message : Command → String → Option Command
  | .Start start _ tags, new_message => some (.Start start (some (some new_message)) tags)
  | .Add start end_ _ tags, new_message => some (.Add start end_ (some (some new_message)) tags)
  | .Back start _ tags, new_message => some (.Back start (some (some new_message)) tags)
  | .BackAdd start end_ _ tags, new_message =>
      some (.BackAdd start end_ (some (some new_message)) tags)
  | .End end_ _ tags, new_message => some (.End end_ (some (some new_message)) tags)
  | _, _ => none

/-- The five message-carrying command variants (Start, Add, Back, BackAdd,
End). -/
def Command.carriesMessage : Command → Bool
  | .Start _ _ _ => true
  | .Add _ _ _ _ => true
  | .Back _ _ _ => true
  | .BackAdd _ _ _ _ => true
  | .End _ _ _ => true
  | _ => false

/-- Replace the message field of a message-carrying variant, leaving every
other field — and every other variant — untouched. -/
def Command.withMessage (c : Command) (m : Option (Option String)) : Command :=
  match c with
  | .Start start _ tags => .Start start m tags
  | .Add start end_ _ tags => .Add start end_ m tags
  | .Back start _ tags => .Back start m tags
  | .BackAdd start end_ _ tags => .BackAdd start end_ m tags
  | .End end_ _ tags => .End end_ m tags
  | other => other

/-- Lines 166-169 of src/command.rs as one function: resolve the end spec
against the start instant, and if the resolved end precedes the start, roll
the end forward by one day. -/
def resolveEndAgainstStart (endSpec : PartialDateTime) (start : ℤ) : ℤ :=
  let e := endSpec.into start
  if e < start then e + (Duration.days 1).into_chrono else e

/-- An `Args` record with nothing supplied, the base of the concrete parse
examples. -/
def emptyArgs : Args :=
  ⟨none, none, none, none, none, none, none, none, none, "", none, none, none,
   false, none, none⟩

/-! ## Calendar report (src/reports.rs) -/

/-- Leap year per the proleptic Gregorian calendar, as computed by the
`days_in_month` crate used in src/reports.rs. -/
def isLeapYear (y : ℤ) : Bool :=
  (y % 4 = 0 && y % 100 ≠ 0) || y % 400 = 0

/-- Days in a month per the `days_in_month` crate used in
src/reports.rs. -/
def daysInMonth (y : ℤ) : ℕ → ℕ
  | 2 => if isLeapYear y then 29 else 28
  | 4 => 30
  | 6 => 30
  | 9 => 30
  | 11 => 30
  | _ => 31

/-- The day range of the calendar grid loop, src/reports.rs line 92:
`for day in 1..days_in_month(*year, *month)` — a Rust `a..b` range is
half-open, so this is the list `[1, …, days_in_month − 1]`. -/
def reportDays (y : ℤ) (m : ℕ) : List ℕ :=
  List.range' 1 (daysInMonth y m - 1)

/-- The grid cells the day loop of src/reports.rs lines 92-169 renders for
one month: one cell per iterated day, holding the day's summed hours when
the day map has an entry (lines 111-164) and `none` — printed as the
placeholder `"-"` (line 166) — otherwise. -/
def reportDayCells (y : ℤ) (m : ℕ) (days : ℕ → Option ℚ) : List (ℕ × Option ℚ) :=
  (reportDays y m).map (fun day => (day, days day))

/-! ## Proofs -/

lemma modifyLoop_eq (l : List String) (flag : Bool) (acc : TagSet) :
    modifyLoop l flag acc = (flag || l.any hasMarker, applyMarked l acc) := by
  induction l generalizing flag acc with
  | nil => simp [modifyLoop, applyMarked]
  | cons t rest ih =>
    by_cases hp : (strStarts t '+' || strEnds t '+') = true
    · simp [modifyLoop, applyMarked, hp, ih, hasMarker]
    · by_cases hms : (strStarts t '-' || strEnds t '-') = true
      · simp [modifyLoop, applyMarked, hp, hms, ih, hasMarker]
      · have hmk : hasMarker t = false := by
          simp only [hasMarker]
          simp only [Bool.or_eq_true] at hp hms
          push_neg at hp hms
          simp [Bool.eq_false_iff.mpr hp.1, Bool.eq_false_iff.mpr hp.2,
            Bool.eq_false_iff.mpr hms.1, Bool.eq_false_iff.mpr hms.2]
        simp [modifyLoop, applyMarked, hp, hms, ih, List.any_cons, hmk]

lemma modify_eq_modifySpec (base modification : TagSet) :
    base.modify modification = modifySpec modification := by
  simp only [TagSet.modify, modifySpec, modifyLoop_eq, Bool.false_or]

lemma dedupFrom_chain (l : List String) (prev : String) :
    List.Chain (· ≠ ·) prev (dedupFrom prev l) := by
  induction l generalizing prev with
  | nil => exact List.Chain.nil
  | cons b rest ih =>
    simp only [dedupFrom]
    by_cases h : prev = b
    · simpa [h] using ih b
    · simpa [h] using List.Chain.cons h (ih b)

lemma dedupList_chain (l : List String) :
    (dedupList l).Chain' (· ≠ ·) := by
  cases l with
  | nil => simp [dedupList]
  | cons a rest =>
    show List.Chain' (· ≠ ·) (a :: dedupFrom a rest)
    exact dedupFrom_chain rest a

lemma insert_nodup (s : TagSet) (t : String) (h : s.val.Nodup) :
    (s.insert t).1.val.Nodup := by
  unfold TagSet.insert
  by_cases hm : t ∈ s.val
  · simpa [hm]
  · simp [hm, List.nodup_append, h]

lemma insert_many_nodup (ts : List String) (s : TagSet) (h : s.val.Nodup) :
    (s.insert_many ts).val.Nodup := by
  induction ts generalizing s with
  | nil => simpa [TagSet.insert_many]
  | cons t rest ih =>
    have step : s.insert_many (t :: rest) = ((s.insert t).1).insert_many rest := by
      simp [TagSet.insert_many]
    rw [step]
    exact ih _ (insert_nodup s t h)

lemma remove_nodup (s : TagSet) (t : String) (h : s.val.Nodup) :
    (s.remove t).val.Nodup := by
  unfold TagSet.remove
  exact h.filter _

lemma insert_many_extends (ts : List String) (s : TagSet) :
    ∃ extra, (s.insert_many ts).val = s.val ++ extra := by
  induction ts generalizing s with
  | nil => exact ⟨[], by simp [TagSet.insert_many]⟩
  | cons t rest ih =>
    have step : s.insert_many (t :: rest) = ((s.insert t).1).insert_many rest := by
      simp [TagSet.insert_many]
    obtain ⟨extra, he⟩ := ih (s.insert t).1
    rw [step, he]
    unfold TagSet.insert
    by_cases hm : t ∈ s.val
    · exact ⟨extra, by simp [hm]⟩
    · exact ⟨t :: extra, by simp [hm]⟩

/-- C4 (corrected): `TagSet::modify` is a function of the modification set
alone — the base set it is invoked on never contributes.  If any entry
carries a `+`/`-` marker (as first or last character), the result is built
from the empty set by inserting each `+`-marked entry and removing each
`-`-marked entry, the entry's *first* character stripped in both cases (so
a suffix marker stays in the produced tag content); if no entry carries a
marker the result is exactly the modification set.  In particular
`["+urgent"]` applied to base `["work"]` yields `["urgent"]`, `["-work"]`
applied to `["work"]` yields `[]`, and `["personal"]` applied to any base
yields `["personal"]`. -/
theorem tagset_modify_characterization :
    (∀ base modification : TagSet, base.modify modification = modifySpec modification) ∧
    TagSet.modify ⟨["work"]⟩ ⟨["+urgent"]⟩ = ⟨["urgent"]⟩ ∧
    TagSet.modify ⟨["work"]⟩ ⟨["-work"]⟩ = ⟨[]⟩ ∧
    TagSet.modify ⟨["work"]⟩ ⟨["personal"]⟩ = ⟨["personal"]⟩ :=
  ⟨modify_eq_modifySpec, by decide, by decide, by decide⟩

/-- C4 counterexample: `["+urgent"]` applied to base `["work"]` yields
`["urgent"]`, not `["work", "urgent"]` — the base set is dropped; and a
suffix-marked entry `"urgent+"` contributes `"rgent+"`, so the marker
character does appear as tag content. -/
theorem tagset_modify_counterexample :
    TagSet.modify ⟨["work"]⟩ ⟨["+urgent"]⟩ = ⟨["urgent"]⟩ ∧
    (⟨["urgent"]⟩ : TagSet) ≠ ⟨["work", "urgent"]⟩ ∧
    TagSet.modify ⟨["work"]⟩ ⟨["urgent+"]⟩ = ⟨["rgent+"]⟩ ∧
    ("rgent+" : String) ≠ "urgent" := by decide

/-- C8 (corrected): construction only collapses *consecutive* duplicates
(`Vec::dedup`), so a constructed TagSet has no two adjacent equal tags but
may repeat a tag at distant positions; the operations `insert`,
`insert_many` and `remove` do preserve full duplicate-freedom. -/
theorem tagset_nodup_amended :
    (∀ v : List String, (TagSet.fromVec v).val.Chain' (· ≠ ·)) ∧
    (∀ (s : TagSet) (t : String), s.val.Nodup → (s.insert t).1.val.Nodup) ∧
    (∀ (s : TagSet) (ts : List String), s.val.Nodup → (s.insert_many ts).val.Nodup) ∧
    (∀ (s : TagSet) (t : String), s.val.Nodup → (s.remove t).val.Nodup) :=
  ⟨fun v => dedupList_chain v,
   fun s t h => insert_nodup s t h,
   fun s ts h => insert_many_nodup ts s h,
   fun s t h => remove_nodup s t h⟩

/-- C8 witness: the amended theorem applied at the concrete set `["a"]`
and inserted tag `"b"`. -/
theorem tagset_nodup_amended_witness :
    (["a"] : List String).Nodup ∧
    ((⟨["a"]⟩ : TagSet).insert "b").1.val.Nodup :=
  ⟨by decide, tagset_nodup_amended.2.1 ⟨["a"]⟩ "b" (by decide)⟩

/-- C8 counterexample: constructing a TagSet from `["a", "b", "a"]` keeps
both copies of `"a"`, so the constructed set is not duplicate-free. -/
theorem tagset_nodup_counterexample :
    TagSet.fromVec ["a", "b", "a"] = ⟨["a", "b", "a"]⟩ ∧
    ¬ (TagSet.fromVec ["a", "b", "a"]).val.Nodup := by decide

/-- C10 (confirmed): `TagSet::insert` returns `false` and leaves the set
unchanged when the tag is already present, and otherwise appends the tag at
the end and returns `true`; consequently `insert_many` only ever appends,
never reordering or removing existing tags. -/
theorem tagset_insert_characterization :
    ∀ (s : TagSet) (t : String),
      (t ∈ s.val → s.insert t = (s, false)) ∧
      (t ∉ s.val → s.insert t = (⟨s.val ++ [t]⟩, true)) ∧
      (∀ ts : List String, ∃ extra, (s.insert_many ts).val = s.val ++ extra) := by
  intro s t
  refine ⟨fun hm => ?_, fun hm => ?_, fun ts => insert_many_extends ts s⟩
  · simp [TagSet.insert, hm]
  · simp [TagSet.insert, hm]

/-- C10 witness: the characterization applied at the set `["work"]` with
the fresh tag `"x"` and the present tag `"work"`. -/
theorem tagset_insert_characterization_witness :
    TagSet.insert ⟨["work"]⟩ "x" = (⟨["work", "x"]⟩, true) ∧
    TagSet.insert ⟨["work"]⟩ "work" = (⟨["work"]⟩, false) :=
  ⟨(tagset_insert_characterization ⟨["work"]⟩ "x").2.1 (by decide),
   (tagset_insert_characterization ⟨["work"]⟩ "work").1 (by decide)⟩

lemma limitLoop_eq_drop (xs : List (ℕ × Job)) (count : ℕ) :
    limitLoop count xs = xs.drop (xs.length - count) := by
  induction xs with
  | nil => simp [limitLoop]
  | cons x xs ih =>
    simp only [limitLoop]
    by_cases h : (x :: xs).length > count
    · rw [if_pos h, ih]
      have hc : (x :: xs).length - count = (xs.length - count) + 1 := by
        simp only [List.length_cons] at h ⊢
        omega
      rw [hc, List.drop_succ_cons]
    · rw [if_neg h]
      have hc : (x :: xs).length - count = 0 := by
        simp only [List.length_cons] at h ⊢
        omega
      rw [hc, List.drop_zero]

/-- C7 (confirmed): `JobList::limit(n)` truncates from the front so that
exactly the last `min n k` (position, job) pairs of a `k`-entry list
remain, unchanged and in order (the result is the list with its first
`k - n` entries dropped); when `n ≥ k` the call leaves the whole JobList
untouched and is never an error. -/
theorem joblist_limit_spec (l : JobList) (n : ℕ) :
    (l.limit n).jobs = l.jobs.drop (l.jobs.length - n) ∧
    (l.limit n).jobs.length = min n l.jobs.length ∧
    (l.jobs.length ≤ n → l.limit n = l) := by
  refine ⟨limitLoop_eq_drop l.jobs n, ?_, ?_⟩
  · simp only [JobList.limit, limitLoop_eq_drop, List.length_drop]
    omega
  · intro h
    have : l.jobs.length - n = 0 := by omega
    simp only [JobList.limit, limitLoop_eq_drop, this, List.drop_zero]

/-- C7 witness: on the concrete five-job list, `limit 10` is a no-op and
`limit 3` keeps exactly the last three entries. -/
theorem joblist_limit_spec_witness :
    sampleList.jobs.length ≤ 10 ∧ sampleList.limit 10 = sampleList ∧
    (sampleList.limit 3).jobs = sampleList.jobs.drop (sampleList.jobs.length - 3) :=
  ⟨by decide, (joblist_limit_spec sampleList 10).2.2 (by decide),
   (joblist_limit_spec sampleList 3).1⟩

lemma getcwtLoop_all_none (l : JobList) (ts : List String)
    (h : ∀ t ∈ ts, l.tag_configuration t = none) :
    getcwtLoop l ts = ("", l.default_configuration) := by
  induction ts with
  | nil => simp [getcwtLoop]
  | cons t rest ih =>
    have ht := h t (by simp)
    simp only [getcwtLoop, ht]
    exact ih (fun u hu => h u (by simp [hu]))

lemma getcwtLoop_first (l : JobList) (pre : List String) (t : String)
    (c : Configuration) (post : List String)
    (hc : l.tag_configuration t = some c)
    (hpre : ∀ u ∈ pre, l.tag_configuration u = none) :
    getcwtLoop l (pre ++ t :: post) = (t, c) := by
  induction pre with
  | nil => simp [getcwtLoop, hc]
  | cons u rest ih =>
    have hu := hpre u (by simp)
    simp only [List.cons_append, getcwtLoop, hu]
    exact ih (fun v hv => hpre v (by simp [hv]))

/-- C1 (confirmed): tag resolution is first-match over the TagSet's stored
order.  If no tag of the set has an entry in the tag map, the result is the
empty tag label with the base configuration; if the set splits as
`pre ++ t :: post` where `t` has an override and every tag of `pre` has
none, the result is that first matching tag with its override — overrides
are never merged, and the map enters only through point lookups, so its
iteration order cannot influence the result.  On the concrete
`TagSet ["b", "a"]` with overrides for both `"a"` (rate 10) and `"b"`
(rate 20), the result is `"b"` with the rate-20 override. -/
theorem tag_resolution_spec :
    (∀ (l : JobList) (tags : TagSet),
      ((∀ t ∈ tags.val, l.tag_configuration t = none) →
        l.get_configuration_with_tag tags = ("", l.default_configuration)) ∧
      (∀ (pre : List String) (t : String) (c : Configuration) (post : List String),
        tags.val = pre ++ t :: post →
        l.tag_configuration t = some c →
        (∀ u ∈ pre, l.tag_configuration u = none) →
        l.get_configuration_with_tag tags = (t, c))) ∧
    exampleConfigList.get_configuration_with_tag ⟨["b", "a"]⟩ = ("b", confB) ∧
    confB.pay = some 20 := by
  refine ⟨fun l tags => ⟨fun h => getcwtLoop_all_none l tags.val h, ?_⟩, by decide, by decide⟩
  intro pre t c post hsplit hc hpre
  show getcwtLoop l tags.val = (t, c)
  rw [hsplit]
  exact getcwtLoop_first l pre t c post hc hpre

/-- C1 witness: the first-match characterization applied at the concrete
example list, with `"b"` as the first (and matching) tag. -/
theorem tag_resolution_spec_witness :
    exampleConfigList.tag_configuration "b" = some confB ∧
    exampleConfigList.get_configuration_with_tag ⟨["b", "a"]⟩ = ("b", confB) :=
  ⟨by decide,
   (tag_resolution_spec.1 exampleConfigList ⟨["b", "a"]⟩).2 [] "b" confB ["a"]
     rfl (by decide) (by simp)⟩

lemma payLoop_spec (l : JobList) (js : List (ℕ × Job)) (s : ℚ) (f : Bool) :
    payLoop l js s f =
      (s + ((js.filter (isRated l)).map (jobPay l)).sum, f || js.any (isRated l)) := by
  induction js generalizing s f with
  | nil => simp [payLoop]
  | cons p rest ih =>
    simp only [payLoop]
    cases hc : (l.get_configuration p.2.tags).pay with
    | none =>
      have hr : isRated l p = false := by simp [isRated, hc]
      simp [ih, hr, List.filter_cons, List.any_cons]
    | some pay =>
      have hr : isRated l p = true := by simp [isRated, hc]
      have hjp : jobPay l p = pay * p.2.hours (l.get_configuration p.2.tags) := by
        simp [jobPay, hc]
      simp [ih, hr, List.filter_cons, List.any_cons, hjp, add_assoc]

lemma getcwtLoop_jobs_irrelevant (l : JobList) (jobs' : List (ℕ × Job))
    (ts : List String) :
    getcwtLoop { l with jobs := jobs' } ts = getcwtLoop l ts := by
  induction ts with
  | nil => simp [getcwtLoop]
  | cons t rest ih => simp only [getcwtLoop, ih]

lemma get_configuration_push (l : JobList) (pos : ℕ) (j : Job) (tags : TagSet) :
    (l.push pos j).get_configuration tags = l.get_configuration tags := by
  simp only [JobList.get_configuration, JobList.get_configuration_with_tag,
    JobList.push, getcwtLoop_jobs_irrelevant]

lemma isRated_push (l : JobList) (pos : ℕ) (j : Job) :
    isRated (l.push pos j) = isRated l := by
  funext p
  simp [isRated, get_configuration_push]

lemma pay_overall_eq (l : JobList) :
    l.pay_overall =
      if l.jobs.any (isRated l) then
        some (((l.jobs.filter (isRated l)).map (jobPay l)).sum)
      else none := by
  unfold JobList.pay_overall
  rw [payLoop_spec]
  simp only [zero_add, Bool.false_or]

/-- C5 (confirmed): `JobList::pay_overall` returns `none` exactly when no
job of the list resolves, by first-match tag resolution, to a configuration
carrying a rate; when some job does, it returns `some` of the sum, over
exactly the rated jobs, of rate times tag-resolved hours (so an all-rated
list totalling zero yields `some 0`, distinct from `none`); and pushing one
job that resolves to a rated configuration onto any list makes the result
`some`. -/
theorem pay_overall_spec (l : JobList) :
    (l.pay_overall = none ↔ ∀ p ∈ l.jobs, (l.get_configuration p.2.tags).pay = none) ∧
    (l.jobs.any (isRated l) = true →
      l.pay_overall = some (((l.jobs.filter (isRated l)).map (jobPay l)).sum)) ∧
    (∀ (pos : ℕ) (j : Job), (l.get_configuration j.tags).pay.isSome →
      ((l.push pos j).pay_overall).isSome) := by
  refine ⟨?_, ?_, ?_⟩
  · rw [pay_overall_eq]
    by_cases h : l.jobs.any (isRated l) = true
    · simp only [h, if_true]
      constructor
      · intro hsome
        exact absurd hsome (by simp)
      · intro hall
        rcases List.any_eq_true.mp h with ⟨p, hp, hr⟩
        simp only [isRated, hall p hp, Option.isSome_none] at hr
        exact absurd hr (by simp)
    · have hf : l.jobs.any (isRated l) = false := by
        simpa using h
      simp only [hf, Bool.false_eq_true, if_false, true_iff]
      intro p hp
      have hfp := List.any_eq_false.mp hf p hp
      cases hc : (l.get_configuration p.2.tags).pay with
      | none => rfl
      | some q => exact absurd (by simp [isRated, hc]) hfp
  · intro h
    rw [pay_overall_eq, if_pos h]
  · intro pos j hj
    rw [pay_overall_eq]
    have hany : (l.push pos j).jobs.any (isRated (l.push pos j)) = true := by
      rw [isRated_push]
      simp only [JobList.push, List.any_append, List.any_cons, List.any_nil,
        Bool.or_false, Bool.or_eq_true]
      right
      simpa [isRated] using hj
    simp [hany]

/-- C5 witness: the all-unrated empty list gives `none`; pushing the rated
job flips the result to `some`, and on the one-rated-job list the result is
the stated sum. -/
theorem pay_overall_spec_witness :
    exampleConfigList.pay_overall = none ∧
    (exampleConfigList.get_configuration ratedJob.tags).pay.isSome = true ∧
    ((exampleConfigList.push 0 ratedJob).pay_overall).isSome = true ∧
    payList.jobs.any (isRated payList) = true ∧
    payList.pay_overall = some (((payList.jobs.filter (isRated payList)).map (jobPay payList)).sum) :=
  ⟨by decide, by decide,
   (pay_overall_spec exampleConfigList).2.2 0 ratedJob (by decide),
   by decide,
   (pay_overall_spec payList).2.1 (by decide)⟩

lemma resolveEnd_le (s : ℤ) (h m : ℕ) (hhm : (h : ℤ) * 60 + (m : ℤ) < 1440) :
    s ≤ resolveEndAgainstStart (PartialDateTime.hm h m) s ∧
    ((h : ℤ) * 60 + (m : ℤ) ≠ s % 1440 →
      s < resolveEndAgainstStart (PartialDateTime.hm h m) s) := by
  simp only [resolveEndAgainstStart, PartialDateTime.into, Duration.days,
    Duration.into_chrono]
  constructor
  · split <;> omega
  · intro hne
    split <;> omega

/-- C2 (corrected): with a forward start spec and an end spec supplying a
time of day but no date, `Command::parse` resolves the end against the
resolved start instant (inheriting its date), adds exactly one day to the
end whenever the resolved end is earlier than the resolved start, and
produces `Add`; the produced end is then never *before* the start, and is
strictly after it whenever the end's time of day differs from the start's —
but it equals the start when the times coincide, so the duration is
non-negative rather than strictly positive. -/
theorem add_end_rollover (args : Args) (open_start : Option ℤ)
    (ctx : Context') (ps : PartialDateTime) (h m : ℕ)
    (hs : args.start = some ps)
    (he : args.end_ = some (PartialDateTime.hm h m))
    (hhm : (h : ℤ) * 60 + (m : ℤ) < 1440) :
    Command.parse args open_start ctx =
      some (.Add (ps.into ctx.current)
        (resolveEndAgainstStart (PartialDateTime.hm h m) (ps.into ctx.current))
        args.message (args.tags.map (fun t => t.splitOn ","))) ∧
    ps.into ctx.current ≤
      resolveEndAgainstStart (PartialDateTime.hm h m) (ps.into ctx.current) ∧
    ((h : ℤ) * 60 + (m : ℤ) ≠ (ps.into ctx.current) % 1440 →
      ps.into ctx.current <
        resolveEndAgainstStart (PartialDateTime.hm h m) (ps.into ctx.current)) := by
  refine ⟨?_, (resolveEnd_le _ h m hhm).1, (resolveEnd_le _ h m hhm).2⟩
  simp only [Command.parse, hs, he, resolveEndAgainstStart]
  simp [PartialDateTime.into]

/-- C2 witness: the spec's own example — at noon, start `"12:00"` and end
`"06:00"` with no date give `Add` ending tomorrow at 06:00 (minute 1800 =
day 1, 06:00). -/
theorem add_end_rollover_witness :
    Command.parse { emptyArgs with start := some (.hm 12 0), end_ := some (.hm 6 0) }
      none ⟨720⟩ =
      some (.Add ((PartialDateTime.hm 12 0).into (720 : ℤ))
        (resolveEndAgainstStart (PartialDateTime.hm 6 0)
          ((PartialDateTime.hm 12 0).into (720 : ℤ)))
        none none) ∧
    resolveEndAgainstStart (PartialDateTime.hm 6 0)
      ((PartialDateTime.hm 12 0).into (720 : ℤ)) = 1800 :=
  ⟨(add_end_rollover _ none ⟨720⟩ (.hm 12 0) 6 0 rfl rfl (by norm_num)).1,
   by decide⟩

/-- C2 counterexample: the produced `Add` does not always have its end
strictly after its start.  With the current instant at noon of day 0, start
`"12:00"` and end `"12:00"` resolve to the same instant (duration zero);
and an end spec carrying its own explicit earlier date (day 0, 06:00
against a start at noon of day 10) stays strictly before the start even
after the one-day roll. -/
theorem add_end_rollover_counterexample :
    Command.parse { emptyArgs with start := some (.hm 12 0), end_ := some (.hm 12 0) }
      none ⟨720⟩ = some (.Add 720 720 none none) ∧
    ¬ ((720 : ℤ) < 720) ∧
    Command.parse { emptyArgs with start := some (.hm 12 0), end_ := some (.ymdhm 0 6 0) }
      none ⟨15120⟩ = some (.Add 15120 1800 none none) ∧
    (1800 : ℤ) < 15120 :=
  ⟨by decide, by decide, by decide, by decide⟩

/-- C6 (corrected): with no forward-start, back-reference or end spec and
no list/export/report range, a supplied list-tags range does *not* take
priority over the later steps: `Command::parse` checks the
show-configuration flag, then the configuration-setting fields, then the
legacy-import filename, and reaches `ListTags` only when none of those are
supplied — ListTags is checked last among the request flags, not together
with List/Export/Report at step 4. -/
theorem listtags_last_priority (args : Args) (open_start : Option ℤ)
    (ctx : Context') (r : String)
    (h1 : args.start = none) (h2 : args.back = none) (h3 : args.end_ = none)
    (h4 : args.list = none) (h5 : args.export_ = none) (h6 : args.report = none)
    (h7 : args.list_tags = some r) :
    Command.parse args open_start ctx =
      if args.configuration then
        some Command.ShowConfiguration
      else if args.resolution.isSome || args.pay.isSome || args.max_hours.isSome then
        some (Command.SetConfiguration args.resolution args.pay
          (args.tags.map (fun t => t.splitOn ",")) args.max_hours)
      else
        match args.legacy_import with
        | some filename => some (Command.LegacyImport filename)
        | none => some (Command.ListTags (Range.parse r ctx)
            (args.tags.map (fun t => t.splitOn ","))) := by
  simp only [Command.parse, h1, h2, h3, h4, h5, h6, h7]

/-- C6 witness: the priority theorem applied at a concrete input carrying
both a list-tags range and the show-configuration flag. -/
theorem listtags_last_priority_witness :
    Command.parse { emptyArgs with configuration := true, list_tags := some "all" }
      none ⟨0⟩ = some Command.ShowConfiguration := by
  have h := listtags_last_priority
    { emptyArgs with configuration := true, list_tags := some "all" }
    none ⟨0⟩ "all" rfl rfl rfl rfl rfl rfl rfl
  simpa using h

/-- C6 counterexample: a list-tags range supplied together with the
show-configuration flag produces `ShowConfiguration`, not `ListTags`; with
a configuration-setting field it produces `SetConfiguration`; with a
legacy-import filename it produces `LegacyImport`. -/
theorem listtags_priority_counterexample :
    Command.parse { emptyArgs with configuration := true, list_tags := some "all" }
      none ⟨0⟩ = some Command.ShowConfiguration ∧
    Command.parse { emptyArgs with pay := some 5, list_tags := some "all" }
      none ⟨0⟩ = some (Command.SetConfiguration none (some 5) none none) ∧
    Command.parse
      { emptyArgs with legacy_import := some "jobber.csv", list_tags := some "all" }
      none ⟨0⟩ = some (Command.LegacyImport "jobber.csv") ∧
    (∀ range tags, some Command.ShowConfiguration ≠ some (Command.ListTags range tags)) := by
  refine ⟨by decide, by rfl, by decide, ?_⟩
  intro range tags
  simp

/-- C9 (confirmed): `Command::set_message` succeeds precisely on the five
message-carrying variants (Start, Add, Back, BackAdd, End), where it
overwrites the message field with the given string and changes nothing
else; on every other variant it reaches the panic arm (modelled as
`none`), which is unreachable under the precondition that the command
carries a message. -/
theorem set_message_spec (c : Command) (s : String) :
    (c.carriesMessage = true →
      c.set_message s = some (c.withMessage (some (some s)))) ∧
    (c.carriesMessage = false → c.set_message s = none) := by
  cases c <;>
    simp [Command.set_message, Command.carriesMessage, Command.withMessage]

/-- C9 witness: `set_message` applied to a concrete `Start` command (one of
the five message-carrying variants) and to `ShowConfiguration` (not one of
them). -/
theorem set_message_spec_witness :
    (Command.Start 0 none none).carriesMessage = true ∧
    (Command.Start 0 none none).set_message "note" =
      some ((Command.Start 0 none none).withMessage (some (some "note"))) ∧
    Command.ShowConfiguration.carriesMessage = false ∧
    Command.ShowConfiguration.set_message "note" = none :=
  ⟨rfl, (set_message_spec (Command.Start 0 none none) "note").1 rfl,
   rfl, (set_message_spec Command.ShowConfiguration "note").2 rfl⟩

/-- C3 (code bug): the calendar grid's day loop `for day in
1..days_in_month(*year, *month)` (src/reports.rs line 92) uses a half-open
Rust range, so the month's final calendar day is never rendered: for July
2023 (31 days) the loop covers days 1 through 30 — day 30 appears, day 31
does not, and the rendered cells are exactly one per iterated day, so even
a day-31 entry of the hours map is dropped rather than printed (neither as
a total nor as the `"-"` placeholder). -/
theorem report_day_loop_skips_last_day :
    daysInMonth 2023 7 = 31 ∧
    (30 ∈ reportDays 2023 7) ∧
    (31 ∉ reportDays 2023 7) ∧
    (reportDayCells 2023 7 (fun d => if d = 31 then some 5 else none)).map Prod.fst =
      reportDays 2023 7 := by
  refine ⟨by decide, by decide, by decide, ?_⟩
  simp only [reportDayCells, List.map_map]
  exact List.map_id _

end Jobber
